import Mathlib

/-!
# Verification of the `ImageAnalysisCache` content-addressable result cache

Shallow embedding of `src/utils/cache_utils.py` (class `ImageAnalysisCache`).
Files are byte lists (`List Nat`, each byte `< 256`); the filesystem, the
cache directory, the clock and I/O fault injection are gathered in a `World`
state that every operation threads explicitly.  The Python `try/except`
blocks are modelled by `PyResult`-valued bodies (the `try` block) plus a
facade that catches (`except`), exactly mirroring the source's control flow.

`hashlib.md5` and `hashlib.sha256` are stdlib collaborators of the source;
they are embedded here as full executable implementations of MD5 and SHA-256
over byte lists, with 32-bit words represented as `Nat` reduced `% 2^32`.
-/

namespace AIImageCache

/-- Truncate to a 32-bit word: `n % 2^32`. -/
def w32 (n : Nat) : Nat := n % 4294967296

/-- Left-rotation of a 32-bit word by `n` bits. -/
def rotl32 (x n : Nat) : Nat := w32 (x * 2 ^ n + x / 2 ^ (32 - n))

/-- Right-rotation of a 32-bit word by `n` bits. -/
def rotr32 (x n : Nat) : Nat := w32 (x / 2 ^ n + x * 2 ^ (32 - n))

/-- Bitwise complement within 32 bits (input already reduced mod 2^32). -/
def compl32 (x : Nat) : Nat := 4294967295 - w32 x

/-- Hex character for a digit `< 16` (lower case, as Python `hexdigest`). -/
def hexChar (n : Nat) : Char := if n < 10 then Char.ofNat (48 + n) else Char.ofNat (87 + n)

/-- Two lower-case hex characters for one byte. -/
def byteToHex (b : Nat) : List Char := [hexChar (b / 16 % 16), hexChar (b % 16)]

/-- Lower-case hex string of a byte list (Python `hexdigest()`). -/
def bytesToHexStr (bs : List Nat) : String := String.mk (bs.foldr (fun b acc => byteToHex b ++ acc) [])

/-- UTF-8 encoding of one character (Python `str.encode()`). -/
def utf8Char (c : Char) : List Nat :=
  let n := c.toNat
  if n < 128 then [n]
  else if n < 2048 then [192 + n / 64, 128 + n % 64]
  else if n < 65536 then [224 + n / 4096, 128 + n / 64 % 64, 128 + n % 64]
  else [240 + n / 262144, 128 + n / 4096 % 64, 128 + n / 64 % 64, 128 + n % 64]

/-- UTF-8 encoding of a string (Python `str.encode()`). -/
def utf8Encode (s : String) : List Nat := s.data.foldr (fun c acc => utf8Char c ++ acc) []

/-- Chunk splitting, structurally recursive on a fuel so that it reduces in
the kernel: each step takes one chunk of `m + 1` elements off the front.
Because every step consumes at least one element, any `fuel ≥ l.length`
yields the full chunk decomposition and the out-of-fuel branch is dead. -/
def chunksFuel (m : Nat) : Nat → List α → List (List α)
  | _, [] => []
  | 0, _ :: _ => []
  | fuel + 1, x :: xs => (x :: xs).take (m + 1) :: chunksFuel m fuel ((x :: xs).drop (m + 1))

/-- Split a list into consecutive chunks of size `m + 1` (the successor
argument makes the chunk size positive by construction); the last chunk may
be shorter.  `chunksOfSucc 4095` models `iter(lambda: f.read(4096), b"")`,
`chunksOfSucc 63` the 64-byte block split of MD5/SHA-256. -/
def chunksOfSucc (m : Nat) (l : List α) : List (List α) := chunksFuel m l.length l

/-- Little-endian word from (up to four) bytes. -/
def bytesToWordLE (bs : List Nat) : Nat := bs.foldr (fun b acc => b + 256 * acc) 0

/-- Big-endian word from (up to four) bytes. -/
def bytesToWordBE (bs : List Nat) : Nat := bs.foldl (fun acc b => acc * 256 + b) 0

/-- Four little-endian bytes of a 32-bit word. -/
def wordToBytesLE (x : Nat) : List Nat :=
  [w32 x % 256, w32 x / 256 % 256, w32 x / 65536 % 256, w32 x / 16777216 % 256]

/-- Four big-endian bytes of a 32-bit word. -/
def wordToBytesBE (x : Nat) : List Nat :=
  [w32 x / 16777216 % 256, w32 x / 65536 % 256, w32 x / 256 % 256, w32 x % 256]

/-- Eight little-endian bytes of a 64-bit length (MD5 padding). -/
def lenLE64 (n : Nat) : List Nat :=
  [n % 256, n / 2 ^ 8 % 256, n / 2 ^ 16 % 256, n / 2 ^ 24 % 256,
   n / 2 ^ 32 % 256, n / 2 ^ 40 % 256, n / 2 ^ 48 % 256, n / 2 ^ 56 % 256]

/-- Eight big-endian bytes of a 64-bit length (SHA-256 padding). -/
def lenBE64 (n : Nat) : List Nat :=
  [n / 2 ^ 56 % 256, n / 2 ^ 48 % 256, n / 2 ^ 40 % 256, n / 2 ^ 32 % 256,
   n / 2 ^ 24 % 256, n / 2 ^ 16 % 256, n / 2 ^ 8 % 256, n % 256]

/-- Merkle–Damgård padding: `0x80`, zeros to 56 mod 64, then the 8-byte bit
length, little-endian for MD5. -/
def md5Pad (msg : List Nat) : List Nat :=
  msg ++ 128 :: List.replicate ((119 - msg.length % 64) % 64) 0 ++ lenLE64 (8 * msg.length)

/-- Same padding with the bit length big-endian, for SHA-256. -/
def sha256Pad (msg : List Nat) : List Nat :=
  msg ++ 128 :: List.replicate ((119 - msg.length % 64) % 64) 0 ++ lenBE64 (8 * msg.length)

/-- The 64 MD5 round constants `floor(2^32 * abs(sin(i + 1)))`. -/
def md5K : List Nat :=
  [3614090360, 3905402710, 606105819, 3250441966, 4118548399, 1200080426, 2821735955, 4249261313,
   1770035416, 2336552879, 4294925233, 2304563134, 1804603682, 4254626195, 2792965006, 1236535329,
   4129170786, 3225465664, 643717713, 3921069994, 3593408605, 38016083, 3634488961, 3889429448,
   568446438, 3275163606, 4107603335, 1163531501, 2850285829, 4243563512, 1735328473, 2368359562,
   4294588738, 2272392833, 1839030562, 4259657740, 2763975236, 1272893353, 4139469664, 3200236656,
   681279174, 3936430074, 3572445317, 76029189, 3654602809, 3873151461, 530742520, 3299628645,
   4096336452, 1126891415, 2878612391, 4237533241, 1700485571, 2399980690, 4293915773, 2240044497,
   1873313359, 4264355552, 2734768916, 1309151649, 4149444226, 3174756917, 718787259, 3951481745]

/-- The 64 MD5 per-round left-rotation amounts. -/
def md5S : List Nat :=
  [7, 12, 17, 22, 7, 12, 17, 22, 7, 12, 17, 22, 7, 12, 17, 22,
   5, 9, 14, 20, 5, 9, 14, 20, 5, 9, 14, 20, 5, 9, 14, 20,
   4, 11, 16, 23, 4, 11, 16, 23, 4, 11, 16, 23, 4, 11, 16, 23,
   6, 10, 15, 21, 6, 10, 15, 21, 6, 10, 15, 21, 6, 10, 15, 21]

/-- One MD5 round: `M` is the sixteen-word message block, `i` the round index. -/
def md5Step (M : List Nat) (st : Nat × Nat × Nat × Nat) (i : Nat) : Nat × Nat × Nat × Nat :=
  let a := st.1; let b := st.2.1; let c := st.2.2.1; let d := st.2.2.2
  let fg : Nat × Nat :=
    if i < 16 then ((b &&& c) ||| (compl32 b &&& d), i)
    else if i < 32 then ((d &&& b) ||| (compl32 d &&& c), (5 * i + 1) % 16)
    else if i < 48 then (b ^^^ c ^^^ d, (3 * i + 5) % 16)
    else (c ^^^ (b ||| compl32 d), 7 * i % 16)
  let f2 := w32 (fg.1 + a + md5K.getD i 0 + M.getD fg.2 0)
  (d, w32 (b + rotl32 f2 (md5S.getD i 0)), b, c)

/-- MD5 compression of one 64-byte block into the running state. -/
def md5Block (st : Nat × Nat × Nat × Nat) (block : List Nat) : Nat × Nat × Nat × Nat :=
  let M := (chunksOfSucc 3 block).map bytesToWordLE
  let r := (List.range 64).foldl (md5Step M) st
  (w32 (st.1 + r.1), w32 (st.2.1 + r.2.1), w32 (st.2.2.1 + r.2.2.1), w32 (st.2.2.2 + r.2.2.2))

/-- MD5 digest (16 bytes) of a byte list. -/
def md5Bytes (msg : List Nat) : List Nat :=
  let r := (chunksOfSucc 63 (md5Pad msg)).foldl md5Block
    (1732584193, 4023233417, 2562383102, 271733878)
  wordToBytesLE r.1 ++ wordToBytesLE r.2.1 ++ wordToBytesLE r.2.2.1 ++ wordToBytesLE r.2.2.2

/-- `hashlib.md5(msg).hexdigest()`. -/
def md5Hex (msg : List Nat) : String := bytesToHexStr (md5Bytes msg)

/-- The 64 SHA-256 round constants (fractional cube roots of the first 64 primes). -/
def sha256K : List Nat :=
  [1116352408, 1899447441, 3049323471, 3921009573, 961987163, 1508970993, 2453635748, 2870763221,
   3624381080, 310598401, 607225278, 1426881987, 1925078388, 2162078206, 2614888103, 3248222580,
   3835390401, 4022224774, 264347078, 604807628, 770255983, 1249150122, 1555081692, 1996064986,
   2554220882, 2821834349, 2952996808, 3210313671, 3336571891, 3584528711, 113926993, 338241895,
   666307205, 773529912, 1294757372, 1396182291, 1695183700, 1986661051, 2177026350, 2456956037,
   2730485921, 2820302411, 3259730800, 3345764771, 3516065817, 3600352804, 4094571909, 275423344,
   430227734, 506948616, 659060556, 883997877, 958139571, 1322822218, 1537002063, 1747873779,
   1955562222, 2024104815, 2227730452, 2361852424, 2428436474, 2756734187, 3204031479, 3329325298]

/-- SHA-256 initial state (fractional square roots of the first 8 primes). -/
def sha256H0 : List Nat :=
  [1779033703, 3144134277, 1013904242, 2773480762, 1359893119, 2600822924, 528734635, 1541459225]

/-- Message-schedule sigma-0. -/
def ssig0 (x : Nat) : Nat := rotr32 x 7 ^^^ rotr32 x 18 ^^^ x / 2 ^ 3

/-- Message-schedule sigma-1. -/
def ssig1 (x : Nat) : Nat := rotr32 x 17 ^^^ rotr32 x 19 ^^^ x / 2 ^ 10

/-- Compression Sigma-0. -/
def bsig0 (x : Nat) : Nat := rotr32 x 2 ^^^ rotr32 x 13 ^^^ rotr32 x 22

/-- Compression Sigma-1. -/
def bsig1 (x : Nat) : Nat := rotr32 x 6 ^^^ rotr32 x 11 ^^^ rotr32 x 25

/-- Extend the sixteen-word schedule by `k` further words. -/
def shaExtend (ws : List Nat) : Nat → List Nat
  | 0 => ws
  | k + 1 =>
    shaExtend (ws ++ [w32 (ws.getD (ws.length - 16) 0 + ssig0 (ws.getD (ws.length - 15) 0) +
      ws.getD (ws.length - 7) 0 + ssig1 (ws.getD (ws.length - 2) 0))]) k

/-- One SHA-256 round over the eight-word working state; `kw` pairs the round
constant with the scheduled word. -/
def sha256Round (st : List Nat) (kw : Nat × Nat) : List Nat :=
  match st with
  | [a, b, c, d, e, f, g, h] =>
    let t1 := w32 (h + bsig1 e + ((e &&& f) ^^^ (compl32 e &&& g)) + kw.1 + kw.2)
    let t2 := w32 (bsig0 a + ((a &&& b) ^^^ (a &&& c) ^^^ (b &&& c)))
    [w32 (t1 + t2), a, b, c, w32 (d + t1), e, f, g]
  | other => other

/-- SHA-256 compression of one 64-byte block into the running eight-word state. -/
def sha256Block (st : List Nat) (block : List Nat) : List Nat :=
  let ws := shaExtend ((chunksOfSucc 3 block).map bytesToWordBE) 48
  let fin := (sha256K.zip ws).foldl sha256Round st
  (st.zip fin).map (fun p => w32 (p.1 + p.2))

/-- SHA-256 digest (32 bytes) of a byte list. -/
def sha256Bytes (msg : List Nat) : List Nat :=
  ((chunksOfSucc 63 (sha256Pad msg)).foldl sha256Block sha256H0).foldr
    (fun wd acc => wordToBytesBE wd ++ acc) []

/-- `hashlib.sha256(msg).hexdigest()`. -/
def sha256Hex (msg : List Nat) : String := bytesToHexStr (sha256Bytes msg)

/-! ## Cache key derivation (`ImageAnalysisCache._get_cache_key`)

Operation parameters (`params: Dict[str, Any]`) carry string scalar values
(`prompt`, `analysis_type`, `detail`), modelled as association lists with
string values; Python dicts have no duplicate keys.  `json.dumps(params,
sort_keys=True)` serializes the entries sorted by key with the default
`", "` / `": "` separators; string escaping is elided (keys and values here
are plain text). -/

/-- One parameter binding: key and (string) value. -/
abbrev Param := String × String

/-- Insert a binding into a list sorted by key (ordering of `json.dumps`
with `sort_keys=True`). -/
def insertSorted (x : Param) : List Param → List Param
  | [] => [x]
  | y :: ys => if x.1 ≤ y.1 then x :: y :: ys else y :: insertSorted x ys

/-- Sort parameter bindings by key. -/
def sortParams (l : List Param) : List Param := l.foldr insertSorted []

/-- JSON rendering of one binding: `"key": "value"`. -/
def paramItem (kv : Param) : String := "\"" ++ kv.1 ++ "\": \"" ++ kv.2 ++ "\""

/-- `json.dumps(params, sort_keys=True)` for a string-valued dict. -/
def dumpsParams (p : List Param) : String :=
  "\x7b" ++ String.intercalate ", " ((sortParams p).map paramItem) ++ "\x7d"

/-- `f"{file_path.absolute()}_{operation}_{param_str}"`; paths handed to the
cache are already absolute, so `absolute()` is the identity on them. -/
def keyContent (f op : String) (p : List Param) : String :=
  f ++ "_" ++ op ++ "_" ++ dumpsParams p

/-- `ImageAnalysisCache._get_cache_key`: `f"{operation}_{md5-hexdigest}.json"`. -/
def cacheKey (f op : String) (p : List Param) : String :=
  op ++ "_" ++ md5Hex (utf8Encode (keyContent f op p)) ++ ".json"

/-! ## File hashing (`ImageAnalysisCache._get_file_hash`)

The source reads the file in 4096-byte chunks and feeds each to a
`hashlib.sha256()` hasher, then takes `hexdigest()`.  Per the `hashlib`
contract, a hasher's state after a sequence of `update` calls is the digest
state of the concatenation of all data passed, so the hasher is embedded as
the accumulated byte list with `update` appending. -/

/-- `ImageAnalysisCache._get_file_hash`: fold 4096-byte chunks into the
hasher, then `hexdigest()`. -/
def get_file_hash (bytes : List Nat) : String :=
  sha256Hex ((chunksOfSucc 4095 bytes).foldl (fun h c => h ++ c) [])

/-! ## The world state -/

/-- Status of a path on the filesystem: absent, present-but-unreadable
(`exists()` is true but `open`/`read` raises), or present with content bytes
and an mtime.  `stat().st_size` of a present file is its byte count. -/
inductive FileState where
  | absent
  | unreadable
  | present (bytes : List Nat) (mtime : Nat)

/-- A deserialized cache record, the `cache_data` dict written by
`store_result` (all eight keys present). -/
structure CacheEntry where
  file_path : String
  file_hash : String
  operation : String
  params : List Param
  result : String
  timestamp : Nat
  file_size : Nat
  file_mtime : Nat
deriving DecidableEq

/-- A file in the cache directory: `content = none` models a record that
exists but fails `json.load` (corrupt); `size` is its `stat().st_size`. -/
structure CacheFile where
  content : Option CacheEntry
  size : Nat
deriving DecidableEq

/-- The explicit state threaded through every operation: the filesystem, the
cache directory (filename-to-record association list), the clock
(`time.time()` in whole seconds), and I/O fault injection: `writeFault`
makes the record write raise, `unlinkFault k` makes `unlink` of record `k`
raise, `statFault` makes the directory scan of `get_cache_info` raise. -/
structure World where
  files : String → FileState
  cache : List (String × CacheFile)
  now : Nat
  writeFault : Bool
  unlinkFault : String → Bool
  statFault : Bool

/-- Look up a filename in the cache directory. -/
def lookupKey (k : String) : List (String × CacheFile) → Option CacheFile
  | [] => none
  | kv :: rest => if kv.1 = k then some kv.2 else lookupKey k rest

/-- Overwrite (or create) the record at a filename. -/
def insertKey (k : String) (v : CacheFile) : List (String × CacheFile) → List (String × CacheFile)
  | [] => [(k, v)]
  | kv :: rest => if kv.1 = k then (k, v) :: rest else kv :: insertKey k v rest

/-- `unlink` of a record file. -/
def eraseCache (w : World) (k : String) : World :=
  { w with cache := w.cache.filter (fun kv => kv.1 ≠ k) }

/-- Does a filename end in `.json` (the `glob("*.json")` pattern)? -/
def isJsonName (s : String) : Bool :=
  decide (5 ≤ s.data.length) && s.data.drop (s.data.length - 5) == ".json".data

/-- The 30-day TTL in seconds (`max_age = 30 * 24 * 3600`). -/
def maxAge : Nat := 2592000

/-- The cache directory path, `Path(tempfile.gettempdir()) / "ai_image_analysis_cache"`. -/
def cacheDirStr : String := "/tmp/ai_image_analysis_cache"

/-- Result of a Python computation together with the world at its end: either
a normal return or a raised exception (caught by the enclosing `except`). -/
inductive PyResult (α : Type) where
  | ok (a : α) (w : World)
  | exc (msg : String) (w : World)

/-! ## The operations -/

/-- A crude measure of the serialized record (`json.dump` output length);
informational only — no validity decision reads it. -/
def entrySize (e : CacheEntry) : Nat :=
  e.file_path.length + e.file_hash.length + e.operation.length +
    (dumpsParams e.params).length + e.result.length + 64

/-- The `try` block of `ImageAnalysisCache.get_cached_result`, line by line:
missing source file returns `None`; missing record file returns `None`;
`json.load` of a corrupt record raises; `_get_file_hash` of an unreadable
file raises; a hash mismatch unlinks the record (raising if the unlink
faults) and returns `None`; an age beyond `max_age` does the same; otherwise
the stored `result` is returned. -/
def get_cached_result_body (w : World) (f op : String) (p : List Param) :
    PyResult (Option String) :=
  match w.files f with
  | .absent => .ok none w
  | .unreadable =>
    let key := cacheKey f op p
    match lookupKey key w.cache with
    | none => .ok none w
    | some cf =>
      match cf.content with
      | none => .exc "json.load" w
      | some _ => .exc "file unreadable" w
  | .present bytes _ =>
    let key := cacheKey f op p
    match lookupKey key w.cache with
    | none => .ok none w
    | some cf =>
      match cf.content with
      | none => .exc "json.load" w
      | some cd =>
        if cd.file_hash ≠ get_file_hash bytes then
          if w.unlinkFault key then .exc "unlink" w
          else .ok none (eraseCache w key)
        else if w.now - cd.timestamp > maxAge then
          if w.unlinkFault key then .exc "unlink" w
          else .ok none (eraseCache w key)
        else .ok (some cd.result) w

/-- `ImageAnalysisCache.get_cached_result`: the `try` block plus the
catch-all `except` that turns any exception into `None`. -/
def get_cached_result (w : World) (f op : String) (p : List Param) :
    Option String × World :=
  match get_cached_result_body w f op p with
  | .ok v w2 => (v, w2)
  | .exc _ w2 => (none, w2)

/-- The `cache_data` dict `store_result` assembles for a file with content
`bytes` and mtime `mt`: the absolute path, the recomputed content hash, the
operation, the parameters, the result, the write time, and the stat size and
mtime. -/
def storedEntry (f op : String) (p : List Param) (r : String) (bytes : List Nat)
    (now mt : Nat) : CacheEntry :=
  { file_path := f
    file_hash := get_file_hash bytes
    operation := op
    params := p
    result := r
    timestamp := now
    file_size := bytes.length
    file_mtime := mt }

/-- The `try` block of `ImageAnalysisCache.store_result`: missing source
file returns silently; `_get_file_hash` of an unreadable file raises; the
record write raises when the write faults, and otherwise overwrites the
record file with the assembled `cache_data`. -/
def store_result_body (w : World) (f op : String) (p : List Param) (result : String) :
    PyResult Unit :=
  match w.files f with
  | .absent => .ok () w
  | .unreadable => .exc "file unreadable" w
  | .present bytes mtime =>
    let key := cacheKey f op p
    let entry := storedEntry f op p result bytes w.now mtime
    if w.writeFault then .exc "write" w
    else .ok () { w with cache := insertKey key ⟨some entry, entrySize entry⟩ w.cache }

/-- `ImageAnalysisCache.store_result`: the `try` block plus the catch-all
`except` that swallows any exception. -/
def store_result (w : World) (f op : String) (p : List Param) (result : String) : World :=
  match store_result_body w f op p result with
  | .ok _ w2 => w2
  | .exc _ w2 => w2

/-- The deletion loop of `ImageAnalysisCache.clear_cache` over the snapshot
of `glob("*.json")`: each iteration unlinks one record and increments the
count; a raising unlink propagates out of the loop (to the `except`), so the
count and deletions made so far are kept and the remaining files survive. -/
def clearLoop (w : World) (n : Nat) : List String → Nat × World
  | [] => (n, w)
  | k :: ks => if w.unlinkFault k then (n, w) else clearLoop (eraseCache w k) (n + 1) ks

/-- `ImageAnalysisCache.clear_cache`: glob the `.json` records, delete them
one by one counting removals; any exception ends the loop but the function
still returns the count accumulated so far. -/
def clear_cache (w : World) : Nat × World :=
  clearLoop w 0 (((w.cache.filter (fun kv => isJsonName kv.1)).map (fun kv => kv.1)))

/-- What `ImageAnalysisCache.get_cache_info` returns: the statistics dict on
success, or the `{'error': ...}` dict when the directory scan raises. -/
inductive CacheInfo where
  | ok (dir : String) (count : Nat) (totalSize : Nat)
  | error (msg : String)
deriving DecidableEq

/-- `ImageAnalysisCache.get_cache_info`: scan the `.json` records, report the
directory, their number and total byte size; a raising scan yields the
explicit error dict instead. (`total_size_mb`, a rounded float derived from
`total_size_bytes`, is outside the integer model.) -/
def get_cache_info (w : World) : CacheInfo :=
  if w.statFault then .error "stat" else
    let jsonFiles := w.cache.filter (fun kv => isJsonName kv.1)
    .ok cacheDirStr jsonFiles.length ((jsonFiles.map (fun kv => kv.2.size)).sum)

/-- Record-count field of a `get_cache_info` result (0 on the error dict). -/
def infoCount : CacheInfo → Nat
  | .ok _ c _ => c
  | .error _ => 0

/-- `_get_file_hash` applied to the file at a path: `some` digest for a
present file, `none` where opening it would fail.  Only the byte content
enters the digest; the path and mtime are discarded. -/
def hashFileAt (w : World) (p : String) : Option String :=
  match w.files p with
  | .present b _ => some (get_file_hash b)
  | _ => none

/-! ## Concrete states used to witness the theorems

`keyA` is `cacheKey "/a" "describe" []` (the MD5 digest of
`/a_describe_{}` is `541a0dfbbbceccc9165d00416be3d0ac`). -/

/-- The record filename derived for file `/a`, operation `describe`, no
parameters. -/
def keyA : String := "describe_541a0dfbbbceccc9165d00416be3d0ac.json"

/-- A record whose stored hash is the SHA-256 of the empty byte string. -/
def entryHit : CacheEntry :=
  ⟨"/a", "e3b0c44298fc1c149afbf4c8996fb92427ae41e4649b934ca495991b7852b855",
   "describe", [], "hello", 1000, 0, 5⟩

/-- A record whose stored hash matches no file content. -/
def entryStale : CacheEntry := ⟨"/a", "stale", "describe", [], "old", 1000, 1, 5⟩

/-- World with an empty file `/a` and a fresh matching record under `keyA`. -/
def wHit : World :=
  ⟨fun p => if p = "/a" then .present [] 5 else .absent,
   [(keyA, ⟨some entryHit, 42⟩)], 1500, false, fun _ => false, false⟩

/-- World where `/a` has bytes `[7]` but the record under `keyA` stores a
different hash. -/
def wStale : World :=
  ⟨fun p => if p = "/a" then .present [7] 5 else .absent,
   [(keyA, ⟨some entryStale, 17⟩)], 1500, false, fun _ => false, false⟩

/-- World where `/a` exists but cannot be read, with a record under `keyA`. -/
def wUnread : World :=
  ⟨fun p => if p = "/a" then .unreadable else .absent,
   [(keyA, ⟨some entryStale, 17⟩)], 1500, false, fun _ => false, false⟩

/-- World where every file is unreadable, the record under `keyA` is corrupt,
the record write raises and the directory scan raises. -/
def wFault : World :=
  ⟨fun _ => .unreadable, [(keyA, ⟨none, 3⟩)], 0, true, fun _ => false, true⟩

/-- World with one readable file and an empty cache directory. -/
def wRT : World :=
  ⟨fun p => if p = "/img/a.png" then .present [1, 2, 3] 7 else .absent,
   [], 1000, false, fun _ => false, false⟩

/-- World with two record files where only the unlink of `a.json` raises. -/
def wClear : World :=
  ⟨fun _ => .absent, [("a.json", ⟨none, 1⟩), ("b.json", ⟨none, 2⟩)],
   0, false, fun k => k == "a.json", false⟩

/-- World with no files at all and one cache record. -/
def wAbsent : World :=
  ⟨fun _ => .absent, [("a.json", ⟨none, 1⟩)], 0, false, fun _ => false, false⟩

/-- World with two paths holding identical bytes under different mtimes. -/
def wTwo : World :=
  ⟨fun p => if p = "/x" then .present [9, 9] 1 else if p = "/y" then .present [9, 9] 2
    else .absent,
   [], 0, false, fun _ => false, false⟩

/-! ## Helper lemmas -/

theorem chunksFuel_foldl_append (m : Nat) :
    ∀ (fuel : Nat) (l acc : List α), l.length ≤ fuel →
      (chunksFuel m fuel l).foldl (fun h c => h ++ c) acc = acc ++ l := by
  intro fuel
  induction fuel with
  | zero =>
    intro l acc h
    cases l with
    | nil => simp [chunksFuel]
    | cons x xs => simp at h
  | succ n ih =>
    intro l acc h
    cases l with
    | nil => simp [chunksFuel]
    | cons x xs =>
      simp only [chunksFuel, List.foldl_cons]
      rw [ih _ _ (by simp at h ⊢; omega)]
      rw [List.append_assoc, List.take_append_drop]

theorem get_file_hash_eq_sha256 (b : List Nat) : get_file_hash b = sha256Hex b := by
  unfold get_file_hash chunksOfSucc
  rw [chunksFuel_foldl_append 4095 b.length b [] (Nat.le_refl _), List.nil_append]

theorem lookupKey_insertKey_self (k : String) (v : CacheFile) (c : List (String × CacheFile)) :
    lookupKey k (insertKey k v c) = some v := by
  induction c with
  | nil => simp [insertKey, lookupKey]
  | cons kv rest ih =>
    by_cases h : kv.1 = k
    · simp [insertKey, h, lookupKey]
    · simp [insertKey, h, lookupKey, ih]

theorem lookupKey_filter_ne_self (k : String) (c : List (String × CacheFile)) :
    lookupKey k (c.filter (fun kv => kv.1 ≠ k)) = none := by
  induction c with
  | nil => simp [lookupKey]
  | cons kv rest ih =>
    simp only [ne_eq, decide_not, List.filter_cons] at ih ⊢
    by_cases h : kv.1 = k
    · simp [h, ih]
    · simp [h, lookupKey, ih]

/-! ## Claim theorems -/

/-- C10: `store_result` on a nonexistent file path is a silent no-op: it
returns normally, writes nothing, and leaves the world (hence every cache
entry and the statistics) unchanged; `get_cached_result` on a nonexistent
file path returns `None` with the world unchanged. -/
theorem store_get_missing_file_noop (w : World) (f op : String) (p : List Param) (r : String)
    (h : w.files f = .absent) :
    store_result w f op p r = w ∧ get_cached_result w f op p = (none, w) := by
  constructor
  · simp [store_result, store_result_body, h]
  · simp [get_cached_result, get_cached_result_body, h]

/-- Witness for C10 at the concrete world `wAbsent`. -/
theorem store_get_missing_file_noop_witness :
    wAbsent.files "/a" = .absent ∧
    store_result wAbsent "/a" "describe" [] "r" = wAbsent ∧
    get_cached_result wAbsent "/a" "describe" [] = (none, wAbsent) :=
  ⟨rfl, (store_get_missing_file_noop wAbsent "/a" "describe" [] "r" rfl).1,
   (store_get_missing_file_noop wAbsent "/a" "describe" [] "r" rfl).2⟩

/-- C7: when the source file is missing or unreadable at lookup time, a
stored entry is preserved: `get_cached_result` returns `None`, the world is
unchanged, and the entry's backing file is still there. -/
theorem get_preserves_entry_on_unreadable (w : World) (f op : String) (p : List Param)
    (cf : CacheFile)
    (h : w.files f = .absent ∨ w.files f = .unreadable)
    (hc : lookupKey (cacheKey f op p) w.cache = some cf) :
    get_cached_result w f op p = (none, w) ∧
    lookupKey (cacheKey f op p) (get_cached_result w f op p).2.cache = some cf := by
  have hres : get_cached_result w f op p = (none, w) := by
    rcases h with h | h
    · simp [get_cached_result, get_cached_result_body, h]
    · cases hcont : cf.content <;>
        simp [get_cached_result, get_cached_result_body, h, hc, hcont]
  exact ⟨hres, by rw [hres]; exact hc⟩

set_option maxRecDepth 100000 in
/-- Witness for C7 at the concrete world `wUnread`. -/
theorem get_preserves_entry_on_unreadable_witness :
    (wUnread.files "/a" = .absent ∨ wUnread.files "/a" = .unreadable) ∧
    lookupKey (cacheKey "/a" "describe" []) wUnread.cache = some ⟨some entryStale, 17⟩ ∧
    get_cached_result wUnread "/a" "describe" [] = (none, wUnread) :=
  ⟨Or.inr rfl, rfl,
   (get_preserves_entry_on_unreadable wUnread "/a" "describe" [] ⟨some entryStale, 17⟩
      (Or.inr rfl) rfl).1⟩

/-- C2: total facade contract.  Whenever the body of `get_cached_result`
(the `try` block) raises, the facade returns `(None, current world)` rather
than propagating; whenever the body of `store_result` raises, the facade
returns the current world normally; and when the directory scan of
`get_cache_info` raises, the explicit error dict is returned rather than an
exception. -/
theorem facade_totality (w : World) (f op : String) (p : List Param) (r : String) :
    (∀ e w2, get_cached_result_body w f op p = .exc e w2 →
      get_cached_result w f op p = (none, w2)) ∧
    (∀ e w2, store_result_body w f op p r = .exc e w2 →
      store_result w f op p r = w2) ∧
    (w.statFault = true → get_cache_info w = .error "stat") := by
  refine ⟨fun e w2 h => ?_, fun e w2 h => ?_, fun h => ?_⟩
  · simp [get_cached_result, h]
  · simp [store_result, h]
  · simp [get_cache_info, h]

set_option maxRecDepth 100000 in
/-- Witness for C2 at the concrete world `wFault`: the get body raises on
the corrupt record, the store body raises on the unreadable file, the scan
faults — and all three facades return normally. -/
theorem facade_totality_witness :
    get_cached_result_body wFault "/a" "describe" [] = .exc "json.load" wFault ∧
    get_cached_result wFault "/a" "describe" [] = (none, wFault) ∧
    store_result_body wFault "/a" "describe" [] "r" = .exc "file unreadable" wFault ∧
    store_result wFault "/a" "describe" [] "r" = wFault ∧
    wFault.statFault = true ∧
    get_cache_info wFault = .error "stat" :=
  ⟨rfl,
   (facade_totality wFault "/a" "describe" [] "r").1 "json.load" wFault rfl,
   rfl,
   (facade_totality wFault "/a" "describe" [] "r").2.1 "file unreadable" wFault rfl,
   rfl,
   (facade_totality wFault "/a" "describe" [] "r").2.2 rfl⟩

/-- C1: under the precondition that the source file is readable and the
entry's backing file exists and deserializes, `get_cached_result` returns
the stored payload exactly when the stored content hash equals the SHA-256
of the file's current bytes and the entry's age is at most the 30-day TTL;
in every other case it returns `None`. -/
theorem get_hit_iff (w : World) (f op : String) (p : List Param) (bytes : List Nat) (mt : Nat)
    (cf : CacheFile) (cd : CacheEntry)
    (hf : w.files f = .present bytes mt)
    (hc : lookupKey (cacheKey f op p) w.cache = some cf)
    (hd : cf.content = some cd) :
    (get_cached_result w f op p).1 =
      if cd.file_hash = sha256Hex bytes ∧ w.now - cd.timestamp ≤ maxAge
      then some cd.result else none := by
  simp only [get_cached_result, get_cached_result_body, hf, hc, hd, get_file_hash_eq_sha256]
  by_cases h1 : cd.file_hash = sha256Hex bytes
  · by_cases h2 : w.now - cd.timestamp > maxAge
    · by_cases h3 : w.unlinkFault (cacheKey f op p) <;>
        simp [h1, h2, h3, Nat.not_le.mpr h2]
    · simp [h1, h2, Nat.le_of_not_lt h2]
  · by_cases h3 : w.unlinkFault (cacheKey f op p) <;> simp [h1, h3]

set_option maxRecDepth 400000 in
/-- Witness for C1 at the concrete world `wHit`. -/
theorem get_hit_iff_witness :
    wHit.files "/a" = .present [] 5 ∧
    lookupKey (cacheKey "/a" "describe" []) wHit.cache = some ⟨some entryHit, 42⟩ ∧
    (CacheFile.mk (some entryHit) 42).content = some entryHit ∧
    (get_cached_result wHit "/a" "describe" []).1 =
      (if entryHit.file_hash = sha256Hex [] ∧ wHit.now - entryHit.timestamp ≤ maxAge
       then some entryHit.result else none) :=
  ⟨rfl, rfl, rfl,
   get_hit_iff wHit "/a" "describe" [] [] 5 ⟨some entryHit, 42⟩ entryHit rfl rfl rfl⟩

/-- C3: round-trip — storing a result for a readable file and then looking
it up with the same file, operation and parameters, the file bytes unchanged
and less than the TTL elapsed, yields the stored result. -/
theorem store_get_roundtrip (w : World) (f op : String) (p : List Param) (r : String)
    (bytes : List Nat) (mt t2 : Nat)
    (hf : w.files f = .present bytes mt)
    (hw : w.writeFault = false)
    (hr : r ≠ "")
    (ht : t2 - w.now < maxAge) :
    (get_cached_result { store_result w f op p r with now := t2 } f op p).1 = some r := by
  have hs : store_result w f op p r =
      { w with cache := (insertKey (cacheKey f op p)
          (CacheFile.mk (some (storedEntry f op p r bytes w.now mt))
            (entrySize (storedEntry f op p r bytes w.now mt))) w.cache) } := by
    simp [store_result, store_result_body, hf, hw]
  rw [hs]
  have hage : ¬ (t2 - w.now > maxAge) := by simp [maxAge] at ht ⊢; omega
  simp [get_cached_result, get_cached_result_body, hf, lookupKey_insertKey_self, storedEntry, hage]

/-- Witness for C3 at the concrete world `wRT`. -/
theorem store_get_roundtrip_witness :
    wRT.files "/img/a.png" = .present [1, 2, 3] 7 ∧
    wRT.writeFault = false ∧
    ("hello" : String) ≠ "" ∧
    1200 - wRT.now < maxAge ∧
    (get_cached_result { store_result wRT "/img/a.png" "describe" [("prompt", "x")] "hello"
        with now := 1200 } "/img/a.png" "describe" [("prompt", "x")]).1 = some "hello" :=
  ⟨rfl, rfl, by decide, by decide,
   store_get_roundtrip wRT "/img/a.png" "describe" [("prompt", "x")] "hello" [1, 2, 3] 7 1200
     rfl rfl (by decide) (by decide)⟩

/-- C9: the chunked hasher equals the SHA-256 hex digest of the full byte
content, and the digest of a file depends only on its bytes — two paths with
identical bytes but different metadata hash identically. -/
theorem file_hash_is_full_sha256 (b : List Nat) (w : World) (p1 p2 : String)
    (bytes : List Nat) (m1 m2 : Nat)
    (h1 : w.files p1 = .present bytes m1)
    (h2 : w.files p2 = .present bytes m2) :
    get_file_hash b = sha256Hex b ∧ hashFileAt w p1 = hashFileAt w p2 := by
  refine ⟨get_file_hash_eq_sha256 b, ?_⟩
  simp [hashFileAt, h1, h2]

/-- Witness for C9 at the concrete world `wTwo`. -/
theorem file_hash_is_full_sha256_witness :
    wTwo.files "/x" = .present [9, 9] 1 ∧ wTwo.files "/y" = .present [9, 9] 2 ∧
    get_file_hash [3] = sha256Hex [3] ∧ hashFileAt wTwo "/x" = hashFileAt wTwo "/y" :=
  ⟨rfl, rfl, (file_hash_is_full_sha256 [3] wTwo "/x" "/y" [9, 9] 1 2 rfl rfl).1,
   (file_hash_is_full_sha256 [3] wTwo "/x" "/y" [9, 9] 1 2 rfl rfl).2⟩

theorem isJsonName_append (x : String) : isJsonName (x ++ ".json") = true := by
  have hd : (x ++ ".json").data = x.data ++ ['.', 'j', 's', 'o', 'n'] := by
    rw [String.data_append]
  simp [isJsonName, hd, Nat.add_sub_cancel, List.drop_left]

theorem cacheKey_isJson (f op : String) (p : List Param) :
    isJsonName (cacheKey f op p) = true := by
  have h : cacheKey f op p = (op ++ "_" ++ md5Hex (utf8Encode (keyContent f op p))) ++ ".json" :=
    rfl
  rw [h, isJsonName_append]

theorem erase_json_count (k : String) (hk : isJsonName k = true) :
    ∀ (c : List (String × CacheFile)), (c.map (fun kv => kv.1)).Nodup →
      (lookupKey k c).isSome = true →
      ((c.filter (fun kv => kv.1 ≠ k)).filter (fun kv => isJsonName kv.1)).length + 1 =
        (c.filter (fun kv => isJsonName kv.1)).length := by
  intro c
  induction c with
  | nil => intro _ h; simp [lookupKey] at h
  | cons kv rest ih =>
    intro hnd hl
    simp only [List.map_cons, List.nodup_cons] at hnd
    by_cases h : kv.1 = k
    · have hrest : rest.filter (fun kv2 => kv2.1 ≠ k) = rest := by
        apply List.filter_eq_self.mpr
        intro a ha
        have hne : a.1 ≠ k := by
          intro hak
          apply hnd.1
          have hmem : a.1 ∈ rest.map (fun kv2 => kv2.1) := List.mem_map_of_mem _ ha
          rw [hak, ← h] at hmem
          exact hmem
        simp [hne]
      have hj2 : isJsonName kv.1 = true := by rw [h]; exact hk
      simp only [List.filter_cons]
      simp [h, hk, hrest, hj2, -List.filter_filter]
      simp only [ne_eq, decide_not] at hrest
      rw [hrest]
    · have hl2 : (lookupKey k rest).isSome = true := by
        simpa [lookupKey, h] using hl
      have hih := ih hnd.2 hl2
      by_cases hj : isJsonName kv.1 = true
      · simp only [List.filter_cons]
        simp [h, hj, -List.filter_filter] at hih ⊢
        omega
      · simp only [List.filter_cons]
        simp [h, hj, -List.filter_filter] at hih ⊢
        omega

/-- C4: miss-with-cleanup — when a stored, deserializable entry is found but
the recomputed content hash differs from the stored one or the entry's age
exceeds the TTL, `get_cached_result` deletes the backing file and returns
`None`, and a subsequent `get_cache_info` counts one record fewer. -/
theorem get_miss_deletes_entry (w : World) (f op : String) (p : List Param) (bytes : List Nat)
    (mt : Nat) (cf : CacheFile) (cd : CacheEntry)
    (hf : w.files f = .present bytes mt)
    (hc : lookupKey (cacheKey f op p) w.cache = some cf)
    (hd : cf.content = some cd)
    (hinv : cd.file_hash ≠ sha256Hex bytes ∨ w.now - cd.timestamp > maxAge)
    (hu : w.unlinkFault (cacheKey f op p) = false)
    (hnd : (w.cache.map (fun kv => kv.1)).Nodup)
    (hsf : w.statFault = false) :
    (get_cached_result w f op p).1 = none ∧
    lookupKey (cacheKey f op p) (get_cached_result w f op p).2.cache = none ∧
    infoCount (get_cache_info (get_cached_result w f op p).2) + 1 =
      infoCount (get_cache_info w) := by
  have hres : get_cached_result w f op p = (none, eraseCache w (cacheKey f op p)) := by
    rcases hinv with h1 | h2
    · simp [get_cached_result, get_cached_result_body, hf, hc, hd, hu,
        get_file_hash_eq_sha256, h1]
    · by_cases h1 : cd.file_hash = sha256Hex bytes
      · simp [get_cached_result, get_cached_result_body, hf, hc, hd, hu,
          get_file_hash_eq_sha256, h1, h2]
      · simp [get_cached_result, get_cached_result_body, hf, hc, hd, hu,
          get_file_hash_eq_sha256, h1]
  rw [hres]
  refine ⟨rfl, lookupKey_filter_ne_self _ _, ?_⟩
  have hcount := erase_json_count (cacheKey f op p) (cacheKey_isJson f op p) w.cache hnd
    (by simp [hc])
  simp only [get_cache_info, eraseCache, hsf, Bool.false_eq_true, if_false, infoCount]
  exact hcount

set_option maxRecDepth 400000 in
/-- Witness for C4 at the concrete world `wStale` (stored hash `"stale"`
cannot match the SHA-256 of the current bytes `[7]`). -/
theorem get_miss_deletes_entry_witness :
    wStale.files "/a" = .present [7] 5 ∧
    lookupKey (cacheKey "/a" "describe" []) wStale.cache = some ⟨some entryStale, 17⟩ ∧
    entryStale.file_hash ≠ sha256Hex [7] ∧
    (get_cached_result wStale "/a" "describe" []).1 = none ∧
    lookupKey (cacheKey "/a" "describe" []) (get_cached_result wStale "/a" "describe" []).2.cache
      = none ∧
    infoCount (get_cache_info (get_cached_result wStale "/a" "describe" []).2) + 1 =
      infoCount (get_cache_info wStale) := by
  have hmain := get_miss_deletes_entry wStale "/a" "describe" [] [7] 5 ⟨some entryStale, 17⟩
    entryStale rfl rfl rfl (Or.inl (by decide)) rfl (by decide) rfl
  exact ⟨rfl, rfl, by decide, hmain.1, hmain.2.1, hmain.2.2⟩

theorem eraseCache_unlinkFault (w : World) (k : String) :
    (eraseCache w k).unlinkFault = w.unlinkFault := rfl

theorem clearLoop_takeWhile (ks : List String) :
    ∀ (w : World) (n : Nat),
      clearLoop w n ks =
        (n + (ks.takeWhile (fun k => !w.unlinkFault k)).length,
         (ks.takeWhile (fun k => !w.unlinkFault k)).foldl eraseCache w) := by
  induction ks with
  | nil => intro w n; simp [clearLoop]
  | cons k ks ih =>
    intro w n
    simp only [clearLoop, List.takeWhile_cons]
    by_cases hf : w.unlinkFault k
    · simp [hf]
    · have hf2 : w.unlinkFault k = false := by simpa using hf
      rw [if_neg (by simp [hf2]), ih (eraseCache w k) (n + 1)]
      simp [hf2, eraseCache_unlinkFault, Prod.ext_iff]
      omega

/-- C5 (amended): `clear_cache` deletes the globbed record files in order
until the first failing deletion, which aborts the loop; the returned count
is the number of files removed before the failure, which is all of them when
no deletion fails. -/
theorem clear_cache_stops_at_first_failure (w : World) :
    clear_cache w =
      ((((w.cache.filter (fun kv => isJsonName kv.1)).map (fun kv => kv.1)).takeWhile
          (fun k => !w.unlinkFault k)).length,
       (((w.cache.filter (fun kv => isJsonName kv.1)).map (fun kv => kv.1)).takeWhile
          (fun k => !w.unlinkFault k)).foldl eraseCache w) := by
  rw [clear_cache, clearLoop_takeWhile]
  simp

/-- C5 counterexample: in `wClear` the deletion of `a.json` fails while the
deletion of `b.json` would succeed, yet `clear_cache` removes nothing and
returns 0 — the failure aborts the remaining deletions instead of continuing
best-effort over the rest. -/
theorem clear_cache_aborts_counterexample :
    wClear.unlinkFault "a.json" = true ∧
    wClear.unlinkFault "b.json" = false ∧
    (clear_cache wClear).1 = 0 ∧
    lookupKey "b.json" (clear_cache wClear).2.cache = some ⟨none, 2⟩ := by decide

theorem insertSorted_perm (x : Param) (l : List Param) : (insertSorted x l).Perm (x :: l) := by
  induction l with
  | nil => exact List.Perm.refl _
  | cons y ys ih =>
    simp only [insertSorted]
    by_cases h : x.1 ≤ y.1
    · rw [if_pos h]
    · rw [if_neg h]
      exact (ih.cons y).trans (List.Perm.swap x y ys)

theorem sortParams_perm (l : List Param) : (sortParams l).Perm l := by
  induction l with
  | nil => exact List.Perm.refl _
  | cons x xs ih => exact (insertSorted_perm x (sortParams xs)).trans (ih.cons x)

theorem insertSorted_sorted (x : Param) (l : List Param)
    (hl : l.Pairwise (fun a b => a.1 ≤ b.1)) :
    (insertSorted x l).Pairwise (fun a b => a.1 ≤ b.1) := by
  induction l with
  | nil => simp [insertSorted]
  | cons y ys ih =>
    rcases List.pairwise_cons.mp hl with ⟨hy, hys⟩
    simp only [insertSorted]
    by_cases h : x.1 ≤ y.1
    · rw [if_pos h]
      refine List.pairwise_cons.mpr ⟨?_, hl⟩
      intro b hb
      rcases List.mem_cons.mp hb with rfl | hb2
      · exact h
      · exact le_trans h (hy b hb2)
    · rw [if_neg h]
      refine List.pairwise_cons.mpr ⟨?_, ih hys⟩
      intro b hb
      rcases List.mem_cons.mp ((insertSorted_perm x ys).mem_iff.mp hb) with rfl | hb2
      · exact le_of_not_le h
      · exact hy b hb2

theorem sortParams_sorted (l : List Param) :
    (sortParams l).Pairwise (fun a b => a.1 ≤ b.1) := by
  induction l with
  | nil => simp [sortParams]
  | cons x xs ih => exact insertSorted_sorted x (sortParams xs) ih

theorem sortParams_strict_of_nodup (l : List Param)
    (hnd : (l.map (fun kv => kv.1)).Nodup) :
    (sortParams l).Pairwise (fun a b => a.1 < b.1) := by
  have hnds : ((sortParams l).map (fun kv => kv.1)).Nodup :=
    (((sortParams_perm l).map (fun kv => kv.1)).symm).nodup hnd
  have hne : (sortParams l).Pairwise (fun a b => a.1 ≠ b.1) := List.pairwise_map.mp hnds
  exact ((sortParams_sorted l).and hne).imp fun hab => lt_of_le_of_ne hab.1 hab.2

theorem sortParams_eq_of_perm (p1 p2 : List Param) (hperm : p1.Perm p2)
    (hnd : (p1.map (fun kv => kv.1)).Nodup) :
    sortParams p1 = sortParams p2 := by
  haveI : IsAntisymm Param (fun a b => a.1 < b.1) :=
    ⟨fun a b h1 h2 => absurd (lt_trans h1 h2) (lt_irrefl _)⟩
  have hp : (sortParams p1).Perm (sortParams p2) :=
    (sortParams_perm p1).trans (hperm.trans (sortParams_perm p2).symm)
  have hnd2 : (p2.map (fun kv => kv.1)).Nodup := ((hperm.map (fun kv => kv.1))).nodup hnd
  exact List.eq_of_perm_of_sorted hp (sortParams_strict_of_nodup p1 hnd)
    (sortParams_strict_of_nodup p2 hnd2)

/-- C6: key derivation is a pure function of its arguments (it takes no
world state, so repeated calls agree and nothing it does touches the
filesystem), and the derived key is independent of the order in which the
parameter entries were supplied: any two parameter lists with the same
bindings (in any order, keys distinct as in a Python dict) derive the same
key. -/
theorem cache_key_order_independent (f op : String) (p1 p2 : List Param)
    (hperm : p1.Perm p2) (hnd : (p1.map (fun kv => kv.1)).Nodup) :
    cacheKey f op p1 = cacheKey f op p1 ∧ cacheKey f op p1 = cacheKey f op p2 := by
  refine ⟨rfl, ?_⟩
  have hs : sortParams p1 = sortParams p2 := sortParams_eq_of_perm p1 p2 hperm hnd
  simp [cacheKey, keyContent, dumpsParams, hs]

/-- Witness for C6: the two orders of `{"b": "2", "a": "1"}` derive the same
key. -/
theorem cache_key_order_independent_witness :
    ([("b", "2"), ("a", "1")] : List Param).Perm [("a", "1"), ("b", "2")] ∧
    (([("b", "2"), ("a", "1")] : List Param).map (fun kv => kv.1)).Nodup ∧
    cacheKey "/img.png" "describe" [("b", "2"), ("a", "1")] =
      cacheKey "/img.png" "describe" [("a", "1"), ("b", "2")] :=
  ⟨by decide, by decide,
   (cache_key_order_independent "/img.png" "describe" [("b", "2"), ("a", "1")]
      [("a", "1"), ("b", "2")] (by decide) (by decide)).2⟩

theorem md5Bytes_length (msg : List Nat) : (md5Bytes msg).length = 16 := by
  simp [md5Bytes, wordToBytesLE]

theorem hexFold_length (bs : List Nat) :
    (bs.foldr (fun b acc => byteToHex b ++ acc) []).length = 2 * bs.length := by
  induction bs with
  | nil => rfl
  | cons b rest ih =>
    have h2 : (byteToHex b).length = 2 := rfl
    simp only [List.foldr_cons, List.length_append, h2, ih, List.length_cons]
    omega

theorem md5Hex_length (msg : List Nat) : (md5Hex msg).length = 32 := by
  simp [md5Hex, bytesToHexStr, String.length, hexFold_length, md5Bytes_length]

theorem hexChar_mem_hexdigits : ∀ n, n < 16 → hexChar n ∈ ("0123456789abcdef").data := by
  decide

theorem hexFold_chars (bs : List Nat) :
    ∀ c ∈ bs.foldr (fun b acc => byteToHex b ++ acc) [], c ∈ ("0123456789abcdef").data := by
  induction bs with
  | nil => intro c hc; simp at hc
  | cons b rest ih =>
    intro c hc
    rcases List.mem_append.mp hc with h | h
    · rcases List.mem_cons.mp h with rfl | h2
      · exact hexChar_mem_hexdigits _ (Nat.mod_lt _ (by omega))
      · rcases List.mem_cons.mp h2 with rfl | h3
        · exact hexChar_mem_hexdigits _ (Nat.mod_lt _ (by omega))
        · simp at h3
    · exact ih c h

theorem md5Hex_chars (msg : List Nat) :
    ∀ c ∈ (md5Hex msg).data, c ∈ ("0123456789abcdef").data := by
  intro c hc
  exact hexFold_chars (md5Bytes msg) c hc

theorem key_parts_ne_of_op_ne (a b d1 d2 s : String)
    (hlen : d1.length = d2.length) (hne : a ≠ b) :
    a ++ "_" ++ d1 ++ s ≠ b ++ "_" ++ d2 ++ s := by
  intro he
  apply hne
  have hd : a.data ++ ("_".data ++ (d1.data ++ s.data)) =
      b.data ++ ("_".data ++ (d2.data ++ s.data)) := by
    have := congrArg String.data he
    simpa [String.data_append, List.append_assoc] using this
  have hlen2 : d1.data.length = d2.data.length := hlen
  have hlena : a.data.length = b.data.length := by
    have hl := congrArg List.length hd
    simp only [List.length_append] at hl
    omega
  exact String.ext (List.append_inj hd hlena).1

/-- C8: the derived key is exactly `"{operation}_{digest}.json"` where the
digest is the 32-character (so at least 16) lower-case hex MD5 of the
concatenated absolute path, operation and canonicalized parameters; and two
derivations with different operation names never collide, even when their
digests coincide, because the digest length is fixed. -/
theorem cache_key_format (f op f2 op2 : String) (p p2 : List Param) :
    cacheKey f op p = op ++ "_" ++ md5Hex (utf8Encode (keyContent f op p)) ++ ".json" ∧
    (md5Hex (utf8Encode (keyContent f op p))).length = 32 ∧
    (∀ c ∈ (md5Hex (utf8Encode (keyContent f op p))).data, c ∈ ("0123456789abcdef").data) ∧
    (op ≠ op2 → cacheKey f op p ≠ cacheKey f2 op2 p2) := by
  refine ⟨rfl, md5Hex_length _, md5Hex_chars _, fun hne => ?_⟩
  exact key_parts_ne_of_op_ne op op2 _ _ ".json"
    (by rw [md5Hex_length, md5Hex_length]) hne

/-- Witness for C8: `describe` and `analyze` derive distinct keys for the
same file and parameters. -/
theorem cache_key_format_witness :
    ("describe" : String) ≠ "analyze" ∧
    cacheKey "/a" "describe" [] ≠ cacheKey "/a" "analyze" [] :=
  ⟨by decide, (cache_key_format "/a" "describe" "/a" "analyze" [] []).2.2.2 (by decide)⟩

end AIImageCache
